import Mathlib

/-!
# ARM-Emulator: ELF footprint, symbol resolution, loading and the UART bridge

A shallow embedding of `emu_cloud.c` (and the footprint loop of `check_elf.c`).

Conventions of the embedding:

* C unsigned integers are natural numbers; every conversion to a fixed width that the
  C code performs is written out with `u8`, `u32` or `u64`.
* The results of calls into the operating system, libelf and the Unicorn engine are
  inputs of the model: `file_env` carries what the calls made by `get_elf_stat` return,
  `Elf` carries what libelf reports about an opened image, and `uc_lib` carries the
  verdict of the engine on each mapping and write request.
* Variables that the C code may read before writing them (locals of `load_elf`, the
  caller's out-parameters) enter the model with an arbitrary initial content. A pointer
  variable that nothing has written yet is either null or wild.
* The C code reads the segment bytes from the file buffer without a bounds check; the
  bytes that lie in host memory behind the buffer are an input of the model
  (`file_env.past_buf`).
* `none` as a result of `load_elf` stands for undefined behaviour (a wild or null pointer
  handed on); `none` as a result of `hook_code` stands for a call that never returns.
-/

set_option linter.unusedVariables false

namespace ArmEmu

/-! ## Machine integers -/

/-- Value of `UINT_MAX` in `limits.h` for a 32-bit `unsigned int`. -/
def UINT_MAX : Nat := 4294967295

/-- Conversion to `uint8_t`. -/
def u8 (x : Nat) : Nat := x % 256

/-- Conversion to `uint32_t`. -/
def u32 (x : Nat) : Nat := x % 4294967296

/-- Conversion to a 64-bit unsigned type (`Elf64_Addr`, `Elf64_Xword`, `uint64_t`). -/
def u64 (x : Nat) : Nat := x % 18446744073709551616

/-- Subtraction `a - b` of two `uint32_t` values (both below 2^32), as computed in C
(wrapping). -/
def sub32 (a b : Nat) : Nat := u32 (a + 4294967296 - b)

/-! ## The image as seen through libelf -/

/-- A program header as `gelf_getphdr` delivers it (class-independent, 64-bit fields). -/
structure GElf_Phdr where
  p_type : Nat
  p_offset : Nat
  p_paddr : Nat
  p_filesz : Nat
  p_memsz : Nat
deriving DecidableEq

/-- A symbol-table entry as the scan of `get_symbol_values` sees it: the string that
`elf_strptr` yields for `st_name`, and `st_value`. -/
structure GElf_Sym where
  name : String
  st_value : Nat
deriving DecidableEq

/-- A section: its `sh_type` and, for a symbol table, the entries `gelf_getsym` yields
for the indices `0 .. sh_size / sh_entsize - 1`. -/
structure Elf_Scn where
  sh_type : Nat
  syms : List GElf_Sym
deriving DecidableEq

/-- Section type of a symbol table (`elf.h`). -/
def SHT_SYMTAB : Nat := 2

/-- An opened image. `phdrnum` is what `elf_getphdrnum` reports (`none` when it fails),
`phdrs` are the program headers that `gelf_getphdr` can deliver (it fails for an index
beyond them), `scns` are the sections in the order `elf_nextscn` visits them. -/
structure Elf where
  phdrnum : Option Nat
  phdrs : List GElf_Phdr
  scns : List Elf_Scn
deriving DecidableEq

/-- The call `elf_getphdrnum(elf, &n)`: the count, or `none` when the call fails (libelf
reports an error for a null handle). -/
def elf_getphdrnum (elf : Option Elf) : Option Nat :=
  match elf with
  | none => none
  | some e => e.phdrnum

/-- The call `gelf_getphdr(elf, i, &phdr)`: the header, or `none` when the call fails. -/
def gelf_getphdr (elf : Option Elf) (i : Nat) : Option GElf_Phdr :=
  match elf with
  | none => none
  | some e => e.phdrs[i]?

/-- An image whose program-header table is exactly the given list of segments. -/
def elf_of_segments (segs : List GElf_Phdr) (scns : List Elf_Scn) : Elf :=
  { phdrnum := some segs.length, phdrs := segs, scns := scns }

/-! ## Footprint: `get_mem_range_elf` -/

/-- The `for` loop of `get_mem_range_elf` (lines 84-97), started at index `i` with
`n - i = fuel`. Returns the final `i`, `*addr_min` and `*addr_max`. -/
def mem_range_loop (elf : Option Elf) : Nat → Nat → Nat → Nat → Nat × Nat × Nat
  | 0, i, amin, amax => (i, amin, amax)
  | fuel + 1, i, amin, amax =>
    match gelf_getphdr elf i with
    | none => (i, amin, amax)
    | some phdr =>
      let amin1 := if phdr.p_paddr < amin then u32 phdr.p_paddr else amin
      let amax1 :=
        if u64 (phdr.p_paddr + phdr.p_memsz) > amax then
          u32 (u64 (phdr.p_paddr + phdr.p_memsz))
        else amax
      mem_range_loop elf fuel (i + 1) amin1 amax1

/-- The function `get_mem_range_elf`: return code, `*addr_min`, `*addr_max`. -/
def get_mem_range_elf (elf : Option Elf) : Nat × Nat × Nat :=
  match elf_getphdrnum elf with
  | none => (1, UINT_MAX, 0)
  | some n =>
    match mem_range_loop elf n 0 UINT_MAX 0 with
    | (i, amin, amax) => if i < n then (2, amin, amax) else (0, amin, amax)

/-! ## Symbol resolution: `get_symbol_values` -/

/-- The out-parameters of `get_symbol_values`. -/
structure sym_vars where
  main_sym : Nat
  uart_init_sym : Nat
  uart_tx_sym : Nat
  uart_rx_sym : Nat
  stack_sym : Nat
  stack_size_sym : Nat
deriving DecidableEq

/-- The `while` loop over `elf_nextscn` (lines 128-134): the first section whose type is
`SHT_SYMTAB`, or `none` when the sections are exhausted. -/
def find_symtab : List Elf_Scn → Option Elf_Scn
  | [] => none
  | scn :: rest => if scn.sh_type = SHT_SYMTAB then some scn else find_symtab rest

/-- One iteration of the symbol loop (lines 144-162) on the out-parameters and the
`uint8_t` counter `progress`. -/
def sym_step (st : sym_vars × Nat) (sym : GElf_Sym) : sym_vars × Nat :=
  if sym.name = "main" then
    ({ st.1 with main_sym := u32 sym.st_value }, u8 (st.2 + 1))
  else if sym.name = "Stack_Size" then
    ({ st.1 with stack_size_sym := u32 sym.st_value }, u8 (st.2 + 1))
  else if sym.name = "__stack" then
    ({ st.1 with stack_sym := u32 sym.st_value }, u8 (st.2 + 1))
  else if sym.name = "unicorn_uart_tx" then
    ({ st.1 with uart_tx_sym := u32 sym.st_value }, u8 (st.2 + 1))
  else if sym.name = "unicorn_uart_rx" then
    ({ st.1 with uart_rx_sym := u32 sym.st_value }, u8 (st.2 + 1))
  else st

/-- The symbol loop (lines 143-163). -/
def sym_loop (syms : List GElf_Sym) (st : sym_vars × Nat) : sym_vars × Nat :=
  syms.foldl sym_step st

/-- The function `get_symbol_values`: return code and the out-parameters. `v` is the
content of the out-parameters before the call. -/
def get_symbol_values (elf : Option Elf) (v : sym_vars) : Nat × sym_vars :=
  let v1 := { v with stack_size_sym := 1024 * 100 }
  let scns := match elf with
    | none => []
    | some e => e.scns
  match find_symtab scns with
  | none => (1, v1)
  | some scn =>
    match sym_loop scn.syms (v1, 0) with
    | (v2, progress) => if progress < 4 then (2, v2) else (0, v2)

/-- Whether a name is one of the five that the scan recognises. -/
def recognized (name : String) : Bool :=
  name = "main" || name = "Stack_Size" || name = "__stack" ||
    name = "unicorn_uart_tx" || name = "unicorn_uart_rx"

/-- Number of entries of a symbol table whose name is recognised, duplicates included. -/
def matched (syms : List GElf_Sym) : Nat :=
  (syms.filter (fun s => recognized s.name)).length

/-! ## The engine and the host -/

/-- Core registers of the emulated CPU. -/
inductive uc_arm_reg where
  | R0 | R1 | R2 | R3 | R4 | R5 | R6 | R7 | R8 | R9 | R10 | R11 | R12 | SP | LR | PC
deriving DecidableEq

/-- State of an engine instance: the mapped regions as (address, size) pairs in mapping
order, the byte stored at every address, and the register file. -/
structure uc_engine where
  regions : List (Nat × Nat)
  mem : Nat → Nat
  regs : uc_arm_reg → Nat

/-- Verdicts of the engine library, which is no part of the repository: the error code
with which it answers a request to map `size` bytes at `address`, and a request to write
`size` bytes at `address`, in a given state (`0` is `UC_ERR_OK`). -/
structure uc_lib where
  mem_map_err : uc_engine → Nat → Nat → Nat
  mem_write_err : uc_engine → Nat → Nat → Nat

/-- Modelled from the spec: the engine capability "read/write a named register"; a read
returns the value the register holds. -/
def uc_reg_read (uc : uc_engine) (r : uc_arm_reg) : Nat := uc.regs r

/-- Modelled from the spec: the engine capability "read/write a named register"; a write
replaces the value of that register and of no other. -/
def uc_reg_write (uc : uc_engine) (r : uc_arm_reg) (v : Nat) : uc_engine :=
  { uc with regs := fun r1 => if r1 = r then v else uc.regs r1 }

/-- Modelled from the spec: the engine capability "map memory region with given
permissions". An accepted request records the region and leaves every stored byte as it
is; a refused request changes nothing. Returns the error code and the new state. -/
def uc_mem_map (L : uc_lib) (uc : uc_engine) (address size : Nat) : Nat × uc_engine :=
  if L.mem_map_err uc address size = 0 then
    (0, { uc with regions := uc.regions ++ [(address, size)] })
  else (L.mem_map_err uc address size, uc)

/-- Modelled from the spec: the engine capability "write bytes at a physical address".
An accepted request stores the bytes at `address, address + 1, ...` and leaves every
other byte as it is; a refused request changes nothing. -/
def uc_mem_write (L : uc_lib) (uc : uc_engine) (address : Nat) (bytes : List Nat) :
    Nat × uc_engine :=
  if L.mem_write_err uc address bytes.length = 0 then
    (0, { uc with mem := (fun a =>
      if address ≤ a ∧ a < address + bytes.length then bytes.getD (a - address) 0
      else uc.mem a) })
  else (L.mem_write_err uc address bytes.length, uc)

/-- Modelled from the spec: reading back `size` bytes at `address` from the engine. -/
def uc_mem_read (uc : uc_engine) (address size : Nat) : List Nat :=
  (List.range size).map (fun k => uc.mem (address + k))

/-- Whether the ranges `[a1, a1 + s1)` and `[a2, a2 + s2)` share an address. -/
def overlaps (a1 s1 a2 s2 : Nat) : Bool :=
  decide (a1 < a2 + s2) && decide (a2 < a1 + s1) && decide (0 < s1) && decide (0 < s2)

/-- Whether `[address, address + size)` lies inside one of the mapped regions. -/
def inside_region (uc : uc_engine) (address size : Nat) : Bool :=
  uc.regions.any (fun r => decide (r.1 ≤ address) && decide (address + size ≤ r.1 + r.2))

/-- A sample library policy in the manner of Unicorn: a mapping needs a non-zero size,
4 KiB alignment of address and size (else code 15) and must not overlap a mapped region
(else code 11); a write must fall inside a mapped region (else code 7). -/
def page_lib : uc_lib where
  mem_map_err := fun uc address size =>
    if size = 0 ∨ address % 4096 ≠ 0 ∨ size % 4096 ≠ 0 then 15
    else if uc.regions.any (fun r => overlaps r.1 r.2 address size) then 11
    else 0
  mem_write_err := fun uc address size =>
    if size = 0 ∨ inside_region uc address size then 0 else 7

/-- A sample library policy that accepts every request. -/
def lax_lib : uc_lib where
  mem_map_err := fun _ _ _ => 0
  mem_write_err := fun _ _ _ => 0

/-- An engine with nothing mapped, all bytes and registers zero. -/
def uc_fresh : uc_engine where
  regions := []
  mem := fun _ => 0
  regs := fun _ => 0

/-- The host side of the bridge: the bytes written to standard output so far (oldest
first), and the outcomes of the coming `read` calls on the input descriptor: `some b`
for a call that delivers the byte `b`, `none` for a call that returns `0` or `-1`. When
the list is exhausted no call ever delivers a byte. -/
structure host where
  out : List Nat
  inp : List (Option Nat)
deriving DecidableEq

/-- Conversion of an unsigned value to plain `char`; `char_signed` tells whether plain
`char` is a signed type on the host ABI. -/
def to_char (char_signed : Bool) (x : Nat) : Int :=
  if char_signed ∧ 128 ≤ x % 256 then (x % 256 : Int) - 256 else (x % 256 : Int)

/-- Conversion of a signed value to `uint32_t`. -/
def int_to_u32 (z : Int) : Nat := (z % 4294967296).toNat

/-- Conversion of a signed value to `unsigned char`. -/
def int_to_uchar (z : Int) : Nat := (z % 256).toNat

/-! ## The bridge: `hook_uart_tx`, `hook_uart_rx`, `hook_code` -/

/-- The struct `symbols` handed to the hook as `user_data`. -/
structure symbols where
  unicorn_uart_init : Nat
  unicorn_uart_tx : Nat
  unicorn_uart_rx : Nat
  fd_pipe_in : Int
  fd_pipe_out : Int
deriving DecidableEq

/-- The function `hook_uart_tx`: `printf("%c", tx)` converts its argument to
`unsigned char` and writes that one byte. -/
def hook_uart_tx (h : host) (tx : Int) : host :=
  { h with out := h.out ++ [int_to_uchar tx] }

/-- The function `hook_uart_rx`: `read` is retried until a call delivers a byte; the
result is that byte as a plain `char`, with the outcomes left for later calls. `none`
when no call ever delivers a byte (the loop never ends). -/
def hook_uart_rx (char_signed : Bool) : List (Option Nat) → Option (Int × List (Option Nat))
  | [] => none
  | none :: rest => hook_uart_rx char_signed rest
  | some b :: rest => some (to_char char_signed b, rest)

/-- The function `hook_code`. The arguments `address` and `size` are unused, as in the
source. `none` when the call never returns. -/
def hook_code (char_signed : Bool) (uc : uc_engine) (h : host) (address size : Nat)
    (sym : symbols) : Option (uc_engine × host) :=
  let pc := uc_reg_read uc uc_arm_reg.PC
  if pc = Nat.land sym.unicorn_uart_tx 4294967294 then
    let lr := uc_reg_read uc uc_arm_reg.LR
    let r0 := uc_reg_read uc uc_arm_reg.R0
    let h1 := hook_uart_tx h (to_char char_signed r0)
    some (uc_reg_write uc uc_arm_reg.PC lr, h1)
  else if pc = Nat.land sym.unicorn_uart_rx 4294967294 then
    let lr := uc_reg_read uc uc_arm_reg.LR
    match hook_uart_rx char_signed h.inp with
    | none => none
    | some (x, rest) =>
      let r0 := int_to_u32 x
      let uc1 := uc_reg_write uc uc_arm_reg.R0 r0
      some (uc_reg_write uc1 uc_arm_reg.PC lr, { h with inp := rest })
  else some (uc, h)

/-! ## Loading: `get_elf_stat`, `load_elf` -/

/-- Outcomes of the system and libelf calls that `get_elf_stat` makes on the file, and
the host memory behind the buffer it allocates: `past_buf k` is the byte found at
`elf_buf[k]` for an index `k` at or beyond the size of the buffer. -/
structure file_env where
  elf_version_ok : Bool
  open_fd : Int
  fstat_ok : Bool
  malloc_ok : Bool
  read_ok : Bool
  file : List Nat
  short_read : List Nat
  elf_begin : Option Elf
  elf_kind_ok : Bool
  past_buf : Nat → Nat

/-- The variables `elf`, `fd` and `elf_buf` of `load_elf`; a null pointer is `none`.
Before `get_elf_stat` writes a pointer variable it holds garbage: `none` when the garbage
is a null pointer, and otherwise a wild pointer, which `load_elf` can test against null
but which must not reach `elf_end` or libelf. -/
structure elf_handles where
  elf : Option Elf
  fd : Int
  elf_buf : Option (List Nat)
deriving DecidableEq

/-- The function `get_elf_stat`: return code and the three variables it writes through
its pointer arguments. `h` is their content before the call. After a failed `read` the
buffer holds `env.short_read`. -/
def get_elf_stat (env : file_env) (h : elf_handles) : Nat × elf_handles :=
  if !env.elf_version_ok then (1, h)
  else if env.open_fd < 0 then (2, { h with fd := env.open_fd })
  else if !env.fstat_ok then (3, { h with fd := env.open_fd })
  else if !env.malloc_ok then (4, { h with fd := env.open_fd, elf_buf := none })
  else if !env.read_ok then
    (5, { h with fd := env.open_fd, elf_buf := some env.short_read })
  else
    match env.elf_begin with
    | none => (6, { elf := none, fd := env.open_fd, elf_buf := some env.file })
    | some e =>
      if !env.elf_kind_ok then
        (7, { elf := some e, fd := env.open_fd, elf_buf := some env.file })
      else (0, { elf := some e, fd := env.open_fd, elf_buf := some env.file })

/-- The bytes `elf_buf[off] .. elf_buf[off + len - 1]` that `uc_mem_write` is handed at
lines 229-230. No bound is checked, as in the source: an index inside the buffer yields
the byte of the buffer, an index at or beyond its size yields the byte `past k` of the
host memory behind it. `none` when the buffer pointer is null. -/
def buf_read (past : Nat → Nat) (elf_buf : Option (List Nat)) (off len : Nat) :
    Option (List Nat) :=
  match elf_buf with
  | none => none
  | some buf => some ((List.range len).map (fun k => (buf[off + k]?).getD (past (off + k))))

/-- The segment loop of `load_elf` (lines 225-234), started at index `i` with
`n - i = fuel`. Returns the final `i`, `err` and the engine; `none` when the buffer
pointer is null. -/
def write_loop (L : uc_lib) (past : Nat → Nat) (elf : Option Elf)
    (elf_buf : Option (List Nat)) :
    Nat → Nat → Nat → uc_engine → Option (Nat × Nat × uc_engine)
  | 0, i, err, uc => some (i, err, uc)
  | fuel + 1, i, err, uc =>
    match gelf_getphdr elf i with
    | none => some (i, err, uc)
    | some phdr =>
      match buf_read past elf_buf phdr.p_offset phdr.p_filesz with
      | none => none
      | some bytes =>
        match uc_mem_write L uc phdr.p_paddr bytes with
        | (err1, uc1) =>
          if err1 ≠ 0 then some (i, err1, uc1)
          else write_loop L past elf elf_buf fuel (i + 1) err1 uc1

/-- Everything `load_elf` writes: the caller's out-parameters `addr_min`, `addr_len` and
(in `syms`) `main_sym`, `uart_init_sym`, `uart_tx_sym`, `uart_rx_sym`; the locals
`addr_max`, `err` and (in `syms`) `stack_sym`, `stack_size_sym`; and the engine. -/
structure load_state where
  addr_min : Nat
  addr_len : Nat
  addr_max : Nat
  err : Nat
  syms : sym_vars
  uc : uc_engine

/-- The rounding of line 210 in `uint32_t` arithmetic. -/
def round_len (addr_max addr_min : Nat) : Nat :=
  u32 (u32 (sub32 addr_max addr_min + 1023) / 1024 * 1024)

/-- The part of `load_elf` from line 202 on; `ret` is the value of `ret` on entry and
`past` the host memory behind the file buffer. -/
def load_elf_body (L : uc_lib) (past : Nat → Nat) (h : elf_handles) (ret : Nat)
    (s : load_state) : Option (Nat × load_state) :=
  match get_mem_range_elf h.elf with
  | (r2, amin, amax) =>
    let s1 := { s with addr_min := amin, addr_max := amax }
    if r2 ≠ 0 then some (2, s1)
    else
      let s2 := { s1 with addr_len := round_len amax amin }
      match uc_mem_map L s2.uc s2.addr_min s2.addr_len with
      | (err1, uc1) =>
        let s3 := { s2 with err := err1, uc := uc1 }
        if err1 ≠ 0 then some (3, s3)
        else
          match elf_getphdrnum h.elf with
          | none => some (4, s3)
          | some n =>
            match write_loop L past h.elf h.elf_buf n 0 err1 uc1 with
            | none => none
            | some (i, err2, uc2) =>
              let s4 := { s3 with err := err2, uc := uc2 }
              if i < n then some (5, s4)
              else
                match get_symbol_values h.elf s4.syms with
                | (r6, sv) =>
                  let s5 := { s4 with syms := sv }
                  if r6 ≠ 0 then some (6, s5)
                  else
                    let uc3 := uc_reg_write uc2 uc_arm_reg.SP sv.stack_sym
                    match uc_mem_map L uc3 sv.stack_sym sv.stack_size_sym with
                    | (err3, uc4) => some (ret, { s5 with err := err3, uc := uc4 })

/-- The function `load_elf`: return code and everything written. `h0` and `s` hold the
content of the variables before the call. `none` stands for undefined behaviour.

After a failed `get_elf_stat` (lines 191-200) the three tests read variables that the
call may not have written. `elf_buf` is null only for the codes 1 to 4, where `elf` is
still unwritten: the jump to `FAILED_MOLLOC` frees the null pointer and hands `elf` to
`elf_end`, which is defined only when that garbage is null. A null `elf` or a zero `fd`
leads to `elf_end(NULL)` and `close` and the return of 1. Otherwise control falls through
to line 202 with `ret = 1`: with a handle that `elf_begin` delivered (code 7), and with a
wild pointer for every other code. -/
def load_elf (L : uc_lib) (env : file_env) (h0 : elf_handles) (s : load_state) :
    Option (Nat × load_state) :=
  match get_elf_stat env h0 with
  | (code, h) =>
    if code ≠ 0 then
      if h.elf_buf.isNone then
        if h.elf.isNone then some (1, s) else none
      else if h.elf.isNone then some (1, s)
      else if h.fd = 0 then some (1, s)
      else if code = 7 then load_elf_body L env.past_buf h 1 s
      else none
    else load_elf_body L env.past_buf h 0 s

/-! ## Notions used to state the properties -/

/-- Being the minimum physical address of a list of segments. -/
def is_min_paddr (segs : List GElf_Phdr) (m : Nat) : Prop :=
  (∃ ph ∈ segs, m = ph.p_paddr) ∧ ∀ ph ∈ segs, m ≤ ph.p_paddr

/-- Being the maximum of `p_paddr + p_memsz` over a list of segments. -/
def is_max_end (segs : List GElf_Phdr) (m : Nat) : Prop :=
  (∃ ph ∈ segs, m = ph.p_paddr + ph.p_memsz) ∧ ∀ ph ∈ segs, ph.p_paddr + ph.p_memsz ≤ m

/-- Being the smallest multiple of 1024 that is at least `span`. -/
def is_least_kib_multiple (len span : Nat) : Prop :=
  1024 ∣ len ∧ span ≤ len ∧ ∀ m : Nat, 1024 ∣ m → span ≤ m → len ≤ m

/-- An address with its low bit cleared. -/
def clear_low_bit (x : Nat) : Nat := x - x % 2

/-- Effect of one iteration of the footprint loop on `*addr_min`. -/
def min_step (amin : Nat) (phdr : GElf_Phdr) : Nat :=
  if phdr.p_paddr < amin then u32 phdr.p_paddr else amin

/-- Effect of one iteration of the footprint loop on `*addr_max`. -/
def max_step (amax : Nat) (phdr : GElf_Phdr) : Nat :=
  if u64 (phdr.p_paddr + phdr.p_memsz) > amax then u32 (u64 (phdr.p_paddr + phdr.p_memsz))
  else amax

/-! ## Sample inputs -/

/-- A table with one entry for each of `main`, `__stack`, `unicorn_uart_tx` and
`unicorn_uart_rx`, and one entry with another name. -/
def four_syms : List GElf_Sym :=
  [⟨"main", 4113⟩, ⟨"__stack", 536870912⟩, ⟨"reset_handler", 4097⟩,
   ⟨"unicorn_uart_tx", 4129⟩, ⟨"unicorn_uart_rx", 4145⟩]

/-- Sections of the sample images: a string table and the symbol table `four_syms`. -/
def sample_scns : List Elf_Scn := [⟨3, []⟩, ⟨SHT_SYMTAB, four_syms⟩]

/-- The two segments of the footprint example: (0x1000, 0x100) and (0x2000, 0x50), with
four file bytes each. -/
def example_segs : List GElf_Phdr := [⟨1, 0, 4096, 4, 256⟩, ⟨1, 4, 8192, 4, 80⟩]

/-- A segment list in which one segment ends beyond the 32-bit address space. -/
def wrapping_segs : List GElf_Phdr := [⟨1, 0, 0, 0, 16⟩, ⟨1, 0, 4294967295, 0, 2⟩]

/-- A single segment that spans the whole 32-bit address space but its last byte. -/
def huge_segs : List GElf_Phdr := [⟨1, 0, 0, 0, 4294967295⟩]

/-- Two page-sized segments placed at the same physical address 0x1000, with four file
bytes each, taken from file offsets 0 and 4. -/
def stacked_segs : List GElf_Phdr := [⟨1, 0, 4096, 4, 4096⟩, ⟨1, 4, 4096, 4, 4096⟩]

/-- A file on which every call of `get_elf_stat` succeeds, with the given bytes and the
given image; the host memory behind the buffer holds the byte 0xAA throughout. -/
def good_file (bytes : List Nat) (e : Elf) : file_env where
  elf_version_ok := true
  open_fd := 3
  fstat_ok := true
  malloc_ok := true
  read_ok := true
  file := bytes
  short_read := []
  elf_begin := some e
  elf_kind_ok := true
  past_buf := fun _ => 170

/-- Eight distinct file bytes. -/
def eight_bytes : List Nat := [17, 34, 51, 68, 85, 102, 119, 136]

/-- Content of the handle variables before `get_elf_stat` runs. -/
def no_handles : elf_handles := ⟨none, 0, none⟩

/-- Content of the variables written by `load_elf` before it runs, with a fresh engine. -/
def blank_state : load_state := ⟨0, 0, 0, 0, ⟨0, 0, 0, 0, 0, 0⟩, uc_fresh⟩

/-- A symbol table with 256 entries, all named `main`. -/
def many_mains : List GElf_Sym := List.replicate 256 ⟨"main", 4113⟩

/-- An image without segments whose only section is the given symbol table. -/
def elf_of_syms (syms : List GElf_Sym) : Elf :=
  { phdrnum := some 0, phdrs := [], scns := [⟨SHT_SYMTAB, syms⟩] }

/-- Content of the out-parameters of `get_symbol_values` before it runs. -/
def blank_syms : sym_vars := ⟨0, 0, 0, 0, 0, 0⟩

/-- Bridge context with the tx stub at 0x1021 and the rx stub at 0x1031 (Thumb addresses,
low bit set). -/
def stub_syms : symbols := ⟨4113, 4129, 4145, 0, 1⟩

/-- A fresh engine with the given values in PC, LR and R0. -/
def engine_at (pc lr r0 : Nat) : uc_engine :=
  uc_reg_write (uc_reg_write (uc_reg_write uc_fresh uc_arm_reg.PC pc) uc_arm_reg.LR lr)
    uc_arm_reg.R0 r0

/-- One page-sized segment at address 0 with four file bytes. -/
def page_segs : List GElf_Phdr := [⟨1, 0, 0, 4, 4096⟩]

/-- A table like `four_syms` whose `__stack` lies at address 0, inside the segment of
`page_segs`. -/
def low_stack_syms : List GElf_Sym :=
  [⟨"main", 17⟩, ⟨"__stack", 0⟩, ⟨"unicorn_uart_tx", 33⟩, ⟨"unicorn_uart_rx", 49⟩]

/-- One page-sized segment at 0x1000 whose four file bytes start at offset 6, so that the
last two lie behind an eight-byte file. -/
def overrun_segs : List GElf_Phdr := [⟨1, 6, 4096, 4, 4096⟩]

/-! ## Footprint -/

theorem getElem?_append_cons (pre t : List GElf_Phdr) (ph : GElf_Phdr) :
    (pre ++ ph :: t)[pre.length]? = some ph := by
  induction pre with
  | nil => simp
  | cons a p ih => simpa using ih

theorem mem_range_loop_eq (e : Elf) (l : List GElf_Phdr) :
    ∀ (pre : List GElf_Phdr) (amin amax : Nat), e.phdrs = pre ++ l →
      mem_range_loop (some e) l.length pre.length amin amax =
        (pre.length + l.length, l.foldl min_step amin, l.foldl max_step amax) := by
  induction l with
  | nil => intro pre amin amax _; simp [mem_range_loop]
  | cons ph t ih =>
    intro pre amin amax h
    have hget : e.phdrs[pre.length]? = some ph := by
      rw [h]; exact getElem?_append_cons pre t ph
    have h2 : e.phdrs = (pre ++ [ph]) ++ t := by simp [h]
    have := ih (pre ++ [ph]) (min_step amin ph) (max_step amax ph) h2
    simp only [List.length_append, List.length_cons, List.length_nil] at this
    simp only [List.length_cons, mem_range_loop, gelf_getphdr, hget, List.foldl_cons]
    rw [show pre.length + (t.length + 1) = pre.length + (0 + 1) + t.length by omega]
    exact this

theorem fold_min_spec (l : List GElf_Phdr) (hb : ∀ ph ∈ l, ph.p_paddr + ph.p_memsz ≤ UINT_MAX) :
    ∀ a : Nat, (l.foldl min_step a = a ∨ ∃ ph ∈ l, l.foldl min_step a = ph.p_paddr) ∧
      l.foldl min_step a ≤ a ∧ ∀ ph ∈ l, l.foldl min_step a ≤ ph.p_paddr := by
  induction l with
  | nil => intro a; simp
  | cons ph t ih =>
    intro a
    have hph : ph.p_paddr + ph.p_memsz ≤ UINT_MAX := hb ph (List.mem_cons_self _ _)
    have ht : ∀ q ∈ t, q.p_paddr + q.p_memsz ≤ UINT_MAX :=
      fun q hq => hb q (List.mem_cons_of_mem _ hq)
    obtain ⟨h1, h2, h3⟩ := ih ht (min_step a ph)
    have hs : min_step a ph = if ph.p_paddr < a then ph.p_paddr else a := by
      unfold min_step u32; unfold UINT_MAX at hph
      split_ifs <;> omega
    simp only [List.foldl_cons, List.mem_cons, exists_eq_or_imp, forall_eq_or_imp]
    refine ⟨?_, ?_, ?_, h3⟩
    · rcases h1 with h1 | ⟨q, hq, h1⟩
      · rw [h1, hs]
        by_cases hlt : ph.p_paddr < a
        · right; left; rw [if_pos hlt]
        · left; rw [if_neg hlt]
      · right; right; exact ⟨q, hq, h1⟩
    · have : min_step a ph ≤ a := by rw [hs]; split_ifs <;> omega
      omega
    · have : min_step a ph ≤ ph.p_paddr := by rw [hs]; split_ifs <;> omega
      omega

theorem fold_max_spec (l : List GElf_Phdr) (hb : ∀ ph ∈ l, ph.p_paddr + ph.p_memsz ≤ UINT_MAX) :
    ∀ b : Nat, (l.foldl max_step b = b ∨
        ∃ ph ∈ l, l.foldl max_step b = ph.p_paddr + ph.p_memsz) ∧
      b ≤ l.foldl max_step b ∧ ∀ ph ∈ l, ph.p_paddr + ph.p_memsz ≤ l.foldl max_step b := by
  induction l with
  | nil => intro b; simp
  | cons ph t ih =>
    intro b
    have hph : ph.p_paddr + ph.p_memsz ≤ UINT_MAX := hb ph (List.mem_cons_self _ _)
    have ht : ∀ q ∈ t, q.p_paddr + q.p_memsz ≤ UINT_MAX :=
      fun q hq => hb q (List.mem_cons_of_mem _ hq)
    obtain ⟨h1, h2, h3⟩ := ih ht (max_step b ph)
    have hs : max_step b ph =
        if ph.p_paddr + ph.p_memsz > b then ph.p_paddr + ph.p_memsz else b := by
      unfold max_step u32 u64; unfold UINT_MAX at hph
      split_ifs <;> omega
    simp only [List.foldl_cons, List.mem_cons, exists_eq_or_imp, forall_eq_or_imp]
    refine ⟨?_, ?_, ?_, h3⟩
    · rcases h1 with h1 | ⟨q, hq, h1⟩
      · rw [h1, hs]
        by_cases hlt : ph.p_paddr + ph.p_memsz > b
        · right; left; rw [if_pos hlt]
        · left; rw [if_neg hlt]
      · right; right; exact ⟨q, hq, h1⟩
    · have : b ≤ max_step b ph := by rw [hs]; split_ifs <;> omega
      omega
    · have : ph.p_paddr + ph.p_memsz ≤ max_step b ph := by rw [hs]; split_ifs <;> omega
      omega

theorem get_mem_range_elf_segments (segs : List GElf_Phdr) (scns : List Elf_Scn) :
    get_mem_range_elf (some (elf_of_segments segs scns)) =
      (0, segs.foldl min_step UINT_MAX, segs.foldl max_step 0) := by
  have h := mem_range_loop_eq (elf_of_segments segs scns) segs [] UINT_MAX 0
    (by simp [elf_of_segments])
  simp only [List.length_nil, Nat.zero_add] at h
  have hn : elf_getphdrnum (some (elf_of_segments segs scns)) = some segs.length := rfl
  simp only [get_mem_range_elf, hn, h, Nat.lt_irrefl, if_false]

/-- C1 (amended): for every non-empty list of segments each of which ends inside the
32-bit address space (`p_paddr + p_memsz ≤ UINT_MAX`), whatever the segment types,
`get_mem_range_elf` returns 0 and leaves `addr_min` equal to the minimum `p_paddr` and
`addr_max` equal to the maximum `p_paddr + p_memsz` over all segments. -/
theorem get_mem_range_elf_min_max (segs : List GElf_Phdr) (scns : List Elf_Scn)
    (hne : segs ≠ [])
    (hfit : ∀ ph ∈ segs, ph.p_paddr + ph.p_memsz ≤ UINT_MAX) :
    (get_mem_range_elf (some (elf_of_segments segs scns))).1 = 0 ∧
      is_min_paddr segs (get_mem_range_elf (some (elf_of_segments segs scns))).2.1 ∧
      is_max_end segs (get_mem_range_elf (some (elf_of_segments segs scns))).2.2 := by
  rw [get_mem_range_elf_segments]
  obtain ⟨m1, m2, m3⟩ := fold_min_spec segs hfit UINT_MAX
  obtain ⟨x1, x2, x3⟩ := fold_max_spec segs hfit 0
  obtain ⟨p, hp⟩ := List.exists_mem_of_ne_nil segs hne
  refine ⟨rfl, ⟨?_, m3⟩, ⟨?_, x3⟩⟩
  · rcases m1 with m1 | m1
    · refine ⟨p, hp, ?_⟩
      have := m3 p hp
      have := hfit p hp
      simp only at m1 ⊢
      omega
    · exact m1
  · rcases x1 with x1 | x1
    · refine ⟨p, hp, ?_⟩
      have := x3 p hp
      simp only at x1 ⊢
      omega
    · exact x1

/-- Witness of `get_mem_range_elf_min_max` on the two segments (0x1000, 0x100) and
(0x2000, 0x50). -/
theorem get_mem_range_elf_min_max_witness :
    (get_mem_range_elf (some (elf_of_segments example_segs sample_scns))).1 = 0 ∧
      is_min_paddr example_segs
        (get_mem_range_elf (some (elf_of_segments example_segs sample_scns))).2.1 ∧
      is_max_end example_segs
        (get_mem_range_elf (some (elf_of_segments example_segs sample_scns))).2.2 :=
  get_mem_range_elf_min_max example_segs sample_scns (by decide) (by decide)

/-- C1 (as stated) fails: on the segments (0, 0x10) and (0xFFFFFFFF, 2), whose fields are
32-bit values, the sum `0x100000001` is cut to 32 bits when stored, so `addr_max` ends
up as 1, which is neither the maximum of `p_paddr + p_memsz` (`0x100000001`) nor the
largest of the segment ends once each is cut to 32 bits (`0x10`). -/
theorem get_mem_range_elf_truncates_end :
    get_mem_range_elf (some (elf_of_segments wrapping_segs [])) = (0, 0, 1) ∧
    ¬ (∀ (segs : List GElf_Phdr) (scns : List Elf_Scn), segs ≠ [] →
        (∀ ph ∈ segs, ph.p_paddr ≤ UINT_MAX ∧ ph.p_memsz ≤ UINT_MAX) →
        (get_mem_range_elf (some (elf_of_segments segs scns))).1 = 0 ∧
          is_min_paddr segs (get_mem_range_elf (some (elf_of_segments segs scns))).2.1 ∧
          is_max_end segs (get_mem_range_elf (some (elf_of_segments segs scns))).2.2) := by
  refine ⟨rfl, fun h => ?_⟩
  obtain ⟨_, _, _, hmax⟩ := h wrapping_segs [] (by decide) (by decide)
  have h16 := hmax ⟨1, 0, 0, 0, 16⟩ (by decide)
  have hval : (get_mem_range_elf (some (elf_of_segments wrapping_segs []))).2.2 = 1 := rfl
  rw [hval] at h16
  exact absurd h16 (by decide)

/-! ## Loading: opening the image and the length of the main region -/

theorem get_elf_stat_ok (env : file_env) (h0 : elf_handles) (e : Elf)
    (hcode : (get_elf_stat env h0).1 = 0) (helf : env.elf_begin = some e) :
    get_elf_stat env h0 = (0, ⟨some e, env.open_fd, some env.file⟩) := by
  unfold get_elf_stat at hcode ⊢
  rw [helf] at hcode ⊢
  simp only at hcode ⊢
  split_ifs at hcode ⊢
  simp_all

theorem get_elf_stat_elf_begin (env : file_env) (h0 : elf_handles)
    (hcode : (get_elf_stat env h0).1 = 0) : ∃ e, env.elf_begin = some e := by
  cases he : env.elf_begin with
  | some e => exact ⟨e, rfl⟩
  | none =>
    exfalso
    unfold get_elf_stat at hcode
    rw [he] at hcode
    simp only at hcode
    split_ifs at hcode

theorem load_elf_of_ok (L : uc_lib) (env : file_env) (h0 : elf_handles) (s : load_state)
    (e : Elf) (hcode : (get_elf_stat env h0).1 = 0) (helf : env.elf_begin = some e) :
    load_elf L env h0 s =
      load_elf_body L env.past_buf ⟨some e, env.open_fd, some env.file⟩ 0 s := by
  unfold load_elf
  rw [get_elf_stat_ok env h0 e hcode helf]
  simp

theorem load_elf_body_range (L : uc_lib) (past : Nat → Nat) (h : elf_handles) (ret : Nat)
    (s : load_state)
    (out : Nat × load_state) (amin amax : Nat)
    (hrange : get_mem_range_elf h.elf = (0, amin, amax))
    (hres : load_elf_body L past h ret s = some out) :
    out.2.addr_min = amin ∧ out.2.addr_max = amax ∧
      out.2.addr_len = round_len amax amin := by
  unfold load_elf_body at hres
  rw [hrange] at hres
  simp only [ne_eq, not_true_eq_false, if_false] at hres
  repeat' split at hres
  all_goals first
    | (cases hres; exact ⟨rfl, rfl, rfl⟩)
    | (exact absurd hres (by simp))

theorem round_len_least (amin amax : Nat) (hle : amin ≤ amax)
    (hspan : amax - amin ≤ 4294966272) :
    is_least_kib_multiple (round_len amax amin) (amax - amin) := by
  have hd : sub32 amax amin = amax - amin := by
    unfold sub32 u32; omega
  have hr : round_len amax amin = (amax - amin + 1023) / 1024 * 1024 := by
    unfold round_len; rw [hd]; unfold u32; omega
  rw [hr]
  refine ⟨Nat.dvd_mul_left _ _, by omega, ?_⟩
  rintro m ⟨k, rfl⟩ hm
  omega

/-- C2 (amended): when the image opens and the footprint fold succeeds with a pair
(`addr_min`, `addr_max`) such that `addr_min ≤ addr_max` and
`addr_max - addr_min ≤ 2^32 - 1024`, the `addr_len` computed by `load_elf` is the
smallest multiple of 1024 that is at least `addr_max - addr_min`; for the segments
(0x1000, 0x100) and (0x2000, 0x50) the fold gives 0x1000 and 0x2050 and the length is
0x1400. -/
theorem load_elf_addr_len_least (L : uc_lib) (env : file_env) (h0 : elf_handles)
    (s : load_state) (e : Elf) (out : Nat × load_state) (amin amax : Nat)
    (hcode : (get_elf_stat env h0).1 = 0) (helf : env.elf_begin = some e)
    (hrange : get_mem_range_elf (some e) = (0, amin, amax))
    (hres : load_elf L env h0 s = some out)
    (hle : amin ≤ amax) (hspan : amax - amin ≤ 4294966272) :
    (out.2.addr_min = amin ∧ out.2.addr_max = amax ∧
      is_least_kib_multiple out.2.addr_len (amax - amin)) ∧
    (get_mem_range_elf (some (elf_of_segments example_segs sample_scns)) = (0, 4096, 8272) ∧
      round_len 8272 4096 = 5120) := by
  rw [load_elf_of_ok L env h0 s e hcode helf] at hres
  obtain ⟨h1, h2, h3⟩ := load_elf_body_range L _ _ 0 s out amin amax hrange hres
  refine ⟨⟨h1, h2, ?_⟩, rfl, rfl⟩
  rw [h3]
  exact round_len_least amin amax hle hspan

/-- Witness of `load_elf_addr_len_least`: loading the image with the segments
(0x1000, 0x100) and (0x2000, 0x50) into an engine that accepts every request gives
`addr_min = 0x1000` and `addr_len = 0x1400`. -/
theorem load_elf_addr_len_least_witness :
    ∃ out, load_elf lax_lib (good_file eight_bytes (elf_of_segments example_segs sample_scns))
        no_handles blank_state = some out ∧
      out.2.addr_min = 4096 ∧ out.2.addr_max = 8272 ∧
      is_least_kib_multiple out.2.addr_len (8272 - 4096) ∧ out.2.addr_len = 5120 := by
  cases hres : load_elf lax_lib
      (good_file eight_bytes (elf_of_segments example_segs sample_scns))
      no_handles blank_state with
  | none =>
    have hs : (load_elf lax_lib
        (good_file eight_bytes (elf_of_segments example_segs sample_scns))
        no_handles blank_state).isSome = true := rfl
    rw [hres] at hs
    exact absurd hs (by decide)
  | some out =>
    have h := (load_elf_addr_len_least lax_lib
      (good_file eight_bytes (elf_of_segments example_segs sample_scns)) no_handles
      blank_state (elf_of_segments example_segs sample_scns) out 4096 8272
      rfl rfl rfl hres (by decide) (by decide)).1
    have hlen : (load_elf lax_lib
        (good_file eight_bytes (elf_of_segments example_segs sample_scns))
        no_handles blank_state).map (fun o => o.2.addr_len) = some 5120 := rfl
    rw [hres] at hlen
    exact ⟨out, rfl, h.1, h.2.1, h.2.2, by simpa using hlen⟩

/-- C2 (as stated) fails: for the single segment (0, 0xFFFFFFFF) the fold gives
`addr_min = 0` and `addr_max = 0xFFFFFFFF`, the sum `0xFFFFFFFF + 1023` wraps in
`uint32_t`, and `load_elf` computes `addr_len = 0`, which is below
`addr_max - addr_min`. -/
theorem load_elf_addr_len_wraps :
    ¬ (∀ (L : uc_lib) (env : file_env) (h0 : elf_handles) (s : load_state)
        (segs : List GElf_Phdr) (scns : List Elf_Scn) (out : Nat × load_state),
        segs ≠ [] →
        (get_elf_stat env h0).1 = 0 → env.elf_begin = some (elf_of_segments segs scns) →
        load_elf L env h0 s = some out →
        is_least_kib_multiple out.2.addr_len
          ((get_mem_range_elf (some (elf_of_segments segs scns))).2.2 -
            (get_mem_range_elf (some (elf_of_segments segs scns))).2.1)) := by
  intro h
  cases hres : load_elf lax_lib
      (good_file eight_bytes (elf_of_segments huge_segs sample_scns))
      no_handles blank_state with
  | none =>
    have hs : (load_elf lax_lib
        (good_file eight_bytes (elf_of_segments huge_segs sample_scns))
        no_handles blank_state).isSome = true := rfl
    rw [hres] at hs
    exact absurd hs (by decide)
  | some out =>
    have hc := h lax_lib (good_file eight_bytes (elf_of_segments huge_segs sample_scns))
      no_handles blank_state huge_segs sample_scns out (by decide) rfl rfl hres
    have hlen : (load_elf lax_lib
        (good_file eight_bytes (elf_of_segments huge_segs sample_scns))
        no_handles blank_state).map (fun o => o.2.addr_len) = some 0 := rfl
    rw [hres] at hlen
    have hlen0 : out.2.addr_len = 0 := by simpa using hlen
    have hspan : (get_mem_range_elf (some (elf_of_segments huge_segs sample_scns))).2.2 -
        (get_mem_range_elf (some (elf_of_segments huge_segs sample_scns))).2.1
          = 4294967295 := rfl
    rw [hlen0, hspan] at hc
    exact absurd hc.2.1 (by decide)

/-! ## Loading an image without segments -/

theorem get_mem_range_elf_zero (e : Elf) (hzero : e.phdrnum = some 0) :
    get_mem_range_elf (some e) = (0, UINT_MAX, 0) := by
  simp [get_mem_range_elf, elf_getphdrnum, hzero, mem_range_loop]

/-- C3 (amended): for an image with zero segments `get_mem_range_elf` reports no error:
it returns 0 and leaves the sentinel range `addr_min = UINT_MAX`, `addr_max = 0`; when
the image opens, `load_elf` goes on to compute `addr_len = 1024` from that range and asks
the engine to map 1024 bytes at `UINT_MAX`, returning 3 exactly when the engine refuses
that request and having the region mapped otherwise. -/
theorem zero_segments_no_error (e : Elf) (hzero : e.phdrnum = some 0) :
    get_mem_range_elf (some e) = (0, UINT_MAX, 0) ∧
    ∀ (L : uc_lib) (env : file_env) (h0 : elf_handles) (s : load_state),
      (get_elf_stat env h0).1 = 0 → env.elf_begin = some e →
      ∃ out, load_elf L env h0 s = some out ∧
        out.2.addr_min = UINT_MAX ∧ out.2.addr_len = 1024 ∧
        (out.1 = 3 ↔ L.mem_map_err s.uc UINT_MAX 1024 ≠ 0) ∧
        (L.mem_map_err s.uc UINT_MAX 1024 = 0 → (UINT_MAX, 1024) ∈ out.2.uc.regions) := by
  refine ⟨get_mem_range_elf_zero e hzero, ?_⟩
  intro L env h0 s hcode helf
  rw [load_elf_of_ok L env h0 s e hcode helf]
  have hlen : round_len 0 UINT_MAX = 1024 := by decide
  unfold load_elf_body
  simp only [get_mem_range_elf_zero e hzero, hlen, ne_eq, not_true_eq_false, if_false,
    elf_getphdrnum, hzero, write_loop, Nat.lt_irrefl]
  by_cases hmap : L.mem_map_err s.uc UINT_MAX 1024 = 0
  · simp only [uc_mem_map, hmap, if_true, not_true_eq_false, if_false]
    split_ifs <;> refine ⟨_, rfl, rfl, rfl, ?_, ?_⟩ <;> simp [uc_reg_write]
  · simp only [uc_mem_map, hmap, if_false, not_false_eq_true, if_true]
    exact ⟨_, rfl, rfl, rfl, by simp [hmap], by simp [hmap]⟩

/-- Witness of `zero_segments_no_error`: an image without segments, loaded into an
engine that accepts every request. -/
theorem zero_segments_no_error_witness :
    ∃ out, load_elf lax_lib (good_file eight_bytes (elf_of_segments [] sample_scns))
        no_handles blank_state = some out ∧
      out.2.addr_min = UINT_MAX ∧ out.2.addr_len = 1024 ∧
      (out.1 = 3 ↔ lax_lib.mem_map_err blank_state.uc UINT_MAX 1024 ≠ 0) ∧
      (lax_lib.mem_map_err blank_state.uc UINT_MAX 1024 = 0 →
        (UINT_MAX, 1024) ∈ out.2.uc.regions) :=
  (zero_segments_no_error (elf_of_segments [] sample_scns) rfl).2 lax_lib
    (good_file eight_bytes (elf_of_segments [] sample_scns)) no_handles blank_state rfl rfl

/-- C3 (as stated) fails: for an image without segments `get_mem_range_elf` returns 0,
and `load_elf`, run on an engine that accepts every request, returns 0 after mapping
1024 bytes at the sentinel address `UINT_MAX`. -/
theorem zero_segments_return_zero :
    ¬ ((get_mem_range_elf (some (elf_of_segments [] sample_scns))).1 ≠ 0) ∧
    (load_elf lax_lib (good_file eight_bytes (elf_of_segments [] sample_scns))
        no_handles blank_state).map (fun o => (o.1, o.2.addr_min, o.2.addr_len,
          o.2.uc.regions)) =
      some (0, 4294967295, 1024, [(4294967295, 1024), (536870912, 102400)]) :=
  ⟨fun h => h rfl, rfl⟩

/-! ## Symbol resolution -/

theorem sym_step_progress (st : sym_vars × Nat) (sym : GElf_Sym) :
    (sym_step st sym).2 = if recognized sym.name then u8 (st.2 + 1) else st.2 := by
  unfold sym_step recognized
  split_ifs <;> simp_all

theorem matched_cons (sym : GElf_Sym) (syms : List GElf_Sym) :
    matched (sym :: syms) = (if recognized sym.name then 1 else 0) + matched syms := by
  unfold matched
  by_cases h : recognized sym.name = true
  · simp [List.filter_cons, h]; omega
  · simp [List.filter_cons, h]

theorem sym_loop_progress (syms : List GElf_Sym) :
    ∀ st : sym_vars × Nat, st.2 < 256 →
      (sym_loop syms st).2 = (st.2 + matched syms) % 256 := by
  induction syms with
  | nil => intro st h; simp [sym_loop, matched]; omega
  | cons sym rest ih =>
    intro st h
    have hstep := sym_step_progress st sym
    have hlt : (sym_step st sym).2 < 256 := by
      rw [hstep]; unfold u8; split_ifs <;> omega
    have := ih (sym_step st sym) hlt
    unfold sym_loop at this ⊢
    rw [List.foldl_cons, this, hstep, matched_cons]
    unfold u8
    split_ifs <;> omega

theorem get_symbol_values_ret (e : Elf) (scn : Elf_Scn) (v : sym_vars)
    (hscn : find_symtab e.scns = some scn) :
    (get_symbol_values (some e) v).1 = if matched scn.syms % 256 < 4 then 2 else 0 := by
  have h := sym_loop_progress scn.syms ({ v with stack_size_sym := 1024 * 100 }, 0)
    (Nat.zero_lt_succ 255)
  simp only [Nat.zero_add] at h
  unfold get_symbol_values
  simp only [hscn]
  rw [← h]
  split_ifs <;> rfl

theorem find_symtab_elf_of_syms (syms : List GElf_Sym) :
    find_symtab (elf_of_syms syms).scns = some ⟨SHT_SYMTAB, syms⟩ := by
  simp [elf_of_syms, find_symtab]

theorem matched_many_mains : matched many_mains = 256 := by
  unfold matched many_mains
  rw [List.filter_replicate, if_pos (by decide)]
  exact List.length_replicate 256 _

/-- C10 (code defect): `progress` is a `uint8_t` and wraps to 0 at the 256th match. For
a symbol table of 256 entries named `main` the number of matching entries is 256, which
is not less than 4, yet `get_symbol_values` returns the insufficient-symbols code 2. -/
theorem get_symbol_values_progress_wraps :
    matched many_mains = 256 ∧
      (get_symbol_values (some (elf_of_syms many_mains)) blank_syms).1 = 2 := by
  refine ⟨matched_many_mains, ?_⟩
  rw [get_symbol_values_ret (elf_of_syms many_mains) ⟨SHT_SYMTAB, many_mains⟩ blank_syms
    (find_symtab_elf_of_syms many_mains), matched_many_mains]
  rfl

/-! ## The bridge -/

theorem testBit_mask (i : Nat) :
    Nat.testBit 4294967294 i = (decide (1 ≤ i) && decide (i < 32)) := by
  by_cases h : i < 32
  · interval_cases i <;> decide
  · have : (4294967294 : Nat) < 2 ^ i := by
      calc (4294967294 : Nat) < 2 ^ 32 := by norm_num
        _ ≤ 2 ^ i := Nat.pow_le_pow_right (by norm_num) (by omega)
    rw [Nat.testBit_lt_two_pow this]
    simp [h]

/-- On a `uint32_t` value, `x & -2` clears the low bit. -/
theorem land_mask_eq_clear_low_bit (x : Nat) (hx : x ≤ UINT_MAX) :
    Nat.land x 4294967294 = clear_low_bit x := by
  unfold UINT_MAX at hx
  unfold clear_low_bit
  apply Nat.eq_of_testBit_eq
  intro i
  show (x &&& 4294967294).testBit i = _
  rw [Nat.testBit_and, testBit_mask]
  have hx2 : x - x % 2 = 2 * (x / 2) := by omega
  rw [hx2]
  cases i with
  | zero => simp
  | succ j =>
    rw [Nat.testBit_succ, Nat.testBit_succ]
    have : 2 * (x / 2) / 2 = x / 2 := by omega
    rw [this]
    by_cases hj : j + 1 < 32
    · simp [hj]
    · have hlt : x / 2 < 2 ^ j := by
        have : 2 ^ 31 ≤ 2 ^ j := Nat.pow_le_pow_right (by norm_num) (by omega)
        have : (2:Nat) ^ 31 = 2147483648 := by norm_num
        omega
      rw [Nat.testBit_lt_two_pow hlt]
      simp

/-- The byte that `printf("%c", (char)r0)` writes is `r0` modulo 256, whether plain
`char` is signed or not. -/
theorem int_to_uchar_to_char (char_signed : Bool) (r0 : Nat) :
    int_to_uchar (to_char char_signed r0) = r0 % 256 := by
  unfold int_to_uchar to_char
  split_ifs <;> omega

/-- What `hook_uart_rx` makes of a received byte once it is widened to `uint32_t`. -/
theorem int_to_u32_to_char (char_signed : Bool) (b : Nat) (hb : b < 256) :
    int_to_u32 (to_char char_signed b) =
      if char_signed = true ∧ 128 ≤ b then b + 4294967040 else b := by
  have hm : (b : Int) % 256 = b := by omega
  unfold int_to_u32 to_char
  rw [hm]
  by_cases hs : char_signed = true ∧ 128 ≤ b
  · have hc : char_signed = true ∧ 128 ≤ b % 256 := ⟨hs.1, by omega⟩
    have he : ((b : Int) - 256) % 4294967296 = ((b + 4294967040 : Nat) : Int) := by omega
    rw [if_pos hc, if_pos hs, he, Int.toNat_ofNat]
  · have hc : ¬ (char_signed = true ∧ 128 ≤ b % 256) := by
      intro hc; exact hs ⟨hc.1, by omega⟩
    have he : (b : Int) % 4294967296 = ((b : Nat) : Int) := by omega
    rw [if_neg hc, if_neg hs, he, Int.toNat_ofNat]

theorem hook_uart_rx_retry (char_signed : Bool) (k : Nat) (b : Nat)
    (rest : List (Option Nat)) :
    hook_uart_rx char_signed (List.replicate k none ++ some b :: rest) =
      some (to_char char_signed b, rest) := by
  induction k with
  | zero => rfl
  | succ n ih => simpa [List.replicate_succ, hook_uart_rx] using ih

/-- C6: when the program counter equals the tx-stub address with its low bit cleared,
whatever R0 and LR hold, one call of `hook_code` returns, appends exactly one byte to the
host output, namely the low 8 bits of R0, consumes no input, and leaves the program
counter equal to the value LR held before the call. -/
theorem hook_code_tx (char_signed : Bool) (uc : uc_engine) (h : host) (address size : Nat)
    (sym : symbols) (htx : sym.unicorn_uart_tx ≤ UINT_MAX)
    (hpc : uc.regs uc_arm_reg.PC = clear_low_bit sym.unicorn_uart_tx) :
    ∃ uc1 h1, hook_code char_signed uc h address size sym = some (uc1, h1) ∧
      h1.out = h.out ++ [uc.regs uc_arm_reg.R0 % 256] ∧ h1.inp = h.inp ∧
      uc1.regs uc_arm_reg.PC = uc.regs uc_arm_reg.LR := by
  rw [← land_mask_eq_clear_low_bit _ htx] at hpc
  refine ⟨uc_reg_write uc uc_arm_reg.PC (uc.regs uc_arm_reg.LR),
    ⟨h.out ++ [uc.regs uc_arm_reg.R0 % 256], h.inp⟩, ?_, rfl, rfl, ?_⟩
  · simp only [hook_code, uc_reg_read, hpc, if_true, hook_uart_tx, int_to_uchar_to_char]
  · simp [uc_reg_write]

/-- Witness of `hook_code_tx`: PC at 0x1020 with the tx stub at 0x1021, R0 holding 'A'
(65) above a set bit 8, LR holding 0x2001. -/
theorem hook_code_tx_witness :
    ∃ uc1 h1, hook_code true (engine_at 4128 8193 321) ⟨[], []⟩ 4128 2 stub_syms =
        some (uc1, h1) ∧
      h1.out = [] ++ [(engine_at 4128 8193 321).regs uc_arm_reg.R0 % 256] ∧ h1.inp = [] ∧
      uc1.regs uc_arm_reg.PC = (engine_at 4128 8193 321).regs uc_arm_reg.LR :=
  hook_code_tx true (engine_at 4128 8193 321) ⟨[], []⟩ 4128 2 stub_syms (by decide) rfl

/-- The receive path in general: when the program counter is at the rx stub (and not at
the tx stub) and the host input delivers the byte `b` after `k` empty reads, the call
returns with the program counter at the old LR and with R0 holding `b` when `b < 128` or
plain `char` is unsigned, and `b + 0xFFFFFF00` otherwise. -/
theorem hook_code_rx (char_signed : Bool) (uc : uc_engine) (h : host) (address size : Nat)
    (sym : symbols) (k b : Nat) (rest : List (Option Nat)) (hb : b < 256)
    (htx : sym.unicorn_uart_tx ≤ UINT_MAX) (hrx : sym.unicorn_uart_rx ≤ UINT_MAX)
    (hpc : uc.regs uc_arm_reg.PC = clear_low_bit sym.unicorn_uart_rx)
    (hne : uc.regs uc_arm_reg.PC ≠ clear_low_bit sym.unicorn_uart_tx)
    (hin : h.inp = List.replicate k none ++ some b :: rest) :
    ∃ uc1 h1, hook_code char_signed uc h address size sym = some (uc1, h1) ∧
      uc1.regs uc_arm_reg.R0 = (if char_signed = true ∧ 128 ≤ b then b + 4294967040 else b) ∧
      uc1.regs uc_arm_reg.PC = uc.regs uc_arm_reg.LR ∧ h1.out = h.out ∧ h1.inp = rest := by
  rw [← land_mask_eq_clear_low_bit _ htx] at hne
  rw [← land_mask_eq_clear_low_bit _ hrx] at hpc
  refine ⟨uc_reg_write (uc_reg_write uc uc_arm_reg.R0 (int_to_u32 (to_char char_signed b)))
    uc_arm_reg.PC (uc.regs uc_arm_reg.LR), ⟨h.out, rest⟩, ?_, ?_, ?_, rfl, rfl⟩
  · have hne1 : Nat.land sym.unicorn_uart_rx 4294967294 ≠
        Nat.land sym.unicorn_uart_tx 4294967294 := hpc ▸ hne
    simp only [hook_code, uc_reg_read, hpc, hne1, if_false, if_true, hin,
      hook_uart_rx_retry]
  · rw [← int_to_u32_to_char char_signed b hb]
    simp [uc_reg_write]
  · simp [uc_reg_write]

/-- C7 (code defect): `hook_uart_rx` returns the received byte as a plain `char`, so on
a host where plain `char` is signed a byte of 0x80 or more is sign-extended when it is
stored into the `uint32_t` that goes to R0. With PC at 0x1030, the rx stub at 0x1031 and
the byte 0x80 next on the input, R0 holds 0xFFFFFF80 after the call, not 0x80; the
program counter holds the old LR, 0x2001. -/
theorem hook_code_rx_sign_extends :
    (hook_code true (engine_at 4144 8193 0) ⟨[], [some 128]⟩ 4144 2 stub_syms).map
        (fun o => (o.1.regs uc_arm_reg.R0, o.1.regs uc_arm_reg.PC, o.2)) =
      some (4294967168, 8193, ⟨[], []⟩) := by
  rfl

/-- C8: when the program counter equals neither the tx-stub address nor the rx-stub
address with the low bit cleared, one call of `hook_code` returns with the engine (every
register, the memory, the mappings) and the host (output written, input pending) exactly
as they were. -/
theorem hook_code_elsewhere (char_signed : Bool) (uc : uc_engine) (h : host)
    (address size : Nat) (sym : symbols)
    (htx : sym.unicorn_uart_tx ≤ UINT_MAX) (hrx : sym.unicorn_uart_rx ≤ UINT_MAX)
    (hne_tx : uc.regs uc_arm_reg.PC ≠ clear_low_bit sym.unicorn_uart_tx)
    (hne_rx : uc.regs uc_arm_reg.PC ≠ clear_low_bit sym.unicorn_uart_rx) :
    hook_code char_signed uc h address size sym = some (uc, h) := by
  rw [← land_mask_eq_clear_low_bit _ htx] at hne_tx
  rw [← land_mask_eq_clear_low_bit _ hrx] at hne_rx
  simp only [hook_code, uc_reg_read, hne_tx, hne_rx, if_false]

/-- Witness of `hook_code_elsewhere`: PC at 0x1000, away from both stubs, with a byte
pending on the input. -/
theorem hook_code_elsewhere_witness :
    hook_code true (engine_at 4096 8193 65) ⟨[7], [some 66]⟩ 4096 2 stub_syms =
      some (engine_at 4096 8193 65, ⟨[7], [some 66]⟩) :=
  hook_code_elsewhere true (engine_at 4096 8193 65) ⟨[7], [some 66]⟩ 4096 2 stub_syms
    (by decide) (by decide) (by decide) (by decide)

/-! ## Loading: the segment bytes -/

theorem buf_read_length (past : Nat → Nat) (buf : Option (List Nat)) (off len : Nat)
    (bytes : List Nat) (h : buf_read past buf off len = some bytes) : bytes.length = len := by
  unfold buf_read at h
  cases buf with
  | none => simp at h
  | some b =>
    simp only [Option.some.injEq] at h
    rw [← h]
    simp

/-- A range that lies inside the buffer is read as the bytes of the buffer. -/
theorem buf_read_inside (past : Nat → Nat) (buf : List Nat) (off len : Nat)
    (h : off + len ≤ buf.length) :
    buf_read past (some buf) off len = some ((buf.drop off).take len) := by
  unfold buf_read
  simp only [Option.some.injEq]
  apply List.ext_getElem
  · simp only [List.length_map, List.length_range, List.length_take, List.length_drop]
    omega
  · intro k h1 h2
    simp only [List.length_map, List.length_range] at h1
    have hk : off + k < buf.length := by omega
    simp [List.getElem_take, List.getElem_drop, List.getElem?_eq_getElem hk]

theorem uc_mem_write_ok (L : uc_lib) (uc uc1 : uc_engine) (a : Nat) (bytes : List Nat)
    (h : uc_mem_write L uc a bytes = (0, uc1)) :
    ∀ x, uc1.mem x =
      if a ≤ x ∧ x < a + bytes.length then bytes.getD (x - a) 0 else uc.mem x := by
  intro x
  unfold uc_mem_write at h
  split_ifs at h with hz
  · cases h; rfl
  · simp only [Prod.mk.injEq] at h
    exact absurd h.1 hz

theorem write_loop_index (L : uc_lib) (past : Nat → Nat) (elf : Option Elf)
    (buf : Option (List Nat)) :
    ∀ (fuel i err : Nat) (uc : uc_engine) (i1 err1 : Nat) (uc1 : uc_engine),
      write_loop L past elf buf fuel i err uc = some (i1, err1, uc1) → i ≤ i1 ∧ i1 ≤ i + fuel := by
  intro fuel
  induction fuel with
  | zero =>
    intro i err uc i1 err1 uc1 h
    simp only [write_loop, Option.some.injEq, Prod.mk.injEq] at h
    omega
  | succ k ih =>
    intro i err uc i1 err1 uc1 h
    unfold write_loop at h
    split at h
    · simp only [Option.some.injEq, Prod.mk.injEq] at h; omega
    · split at h
      · simp at h
      · split at h
        split_ifs at h
        · simp only [Option.some.injEq, Prod.mk.injEq] at h; omega
        · have := ih _ _ _ _ _ _ h
          omega

/-- One completed iteration of the segment loop, taken apart. -/
theorem write_loop_step (L : uc_lib) (past : Nat → Nat) (elf : Option Elf)
    (buf : Option (List Nat))
    (k i err : Nat) (uc : uc_engine) (err2 : Nat) (uc2 : uc_engine)
    (h : write_loop L past elf buf (k + 1) i err uc = some (i + (k + 1), err2, uc2)) :
    ∃ ph bytes uc1, gelf_getphdr elf i = some ph ∧
      buf_read past buf ph.p_offset ph.p_filesz = some bytes ∧
      uc_mem_write L uc ph.p_paddr bytes = (0, uc1) ∧
      write_loop L past elf buf k (i + 1) 0 uc1 = some (i + 1 + k, err2, uc2) := by
  unfold write_loop at h
  split at h
  · simp only [Option.some.injEq, Prod.mk.injEq] at h; omega
  · rename_i ph hph
    split at h
    · simp at h
    · rename_i bytes hbytes
      split at h
      rename_i e1 uc1 hw
      split_ifs at h with he
      · simp only [Option.some.injEq, Prod.mk.injEq] at h; omega
      · have he0 : e1 = 0 := by simpa using he
        subst he0
        refine ⟨ph, bytes, uc1, hph, hbytes, hw, ?_⟩
        rw [h]; congr 2; omega

theorem write_loop_frame (L : uc_lib) (past : Nat → Nat) (elf : Option Elf)
    (buf : Option (List Nat)) :
    ∀ (fuel i err : Nat) (uc : uc_engine) (err2 : Nat) (uc2 : uc_engine),
      write_loop L past elf buf fuel i err uc = some (i + fuel, err2, uc2) →
      ∀ a len : Nat,
        (∀ j q, i ≤ j → j < i + fuel → gelf_getphdr elf j = some q →
          overlaps a len q.p_paddr q.p_filesz = false) →
        ∀ x, a ≤ x → x < a + len → uc2.mem x = uc.mem x := by
  intro fuel
  induction fuel with
  | zero =>
    intro i err uc err2 uc2 h a len _ x _ _
    simp only [write_loop, Option.some.injEq, Prod.mk.injEq] at h
    rw [← h.2.2]
  | succ k ih =>
    intro i err uc err2 uc2 h a len hdis x hax hxl
    obtain ⟨ph, bytes, uc1, hph, hbytes, hw, hrest⟩ := write_loop_step L past elf buf k i err uc err2 uc2 h
    have hlen := buf_read_length past buf _ _ bytes hbytes
    have h1 := ih (i + 1) 0 uc1 err2 uc2 hrest a len
      (fun j q hj hj2 hq => hdis j q (by omega) (by omega) hq) x hax hxl
    rw [h1, uc_mem_write_ok L uc uc1 _ bytes hw x, hlen]
    have hov := hdis i ph (le_refl _) (by omega) hph
    simp only [overlaps, Bool.and_eq_false_iff, decide_eq_false_iff_not] at hov
    rw [if_neg]
    intro hc
    omega

theorem uc_mem_read_eq (uc : uc_engine) (a : Nat) (bytes : List Nat)
    (h : ∀ k, k < bytes.length → uc.mem (a + k) = bytes.getD k 0) :
    uc_mem_read uc a bytes.length = bytes := by
  unfold uc_mem_read
  apply List.ext_getElem
  · simp
  · intro k h1 h2
    simp only [List.getElem_map, List.getElem_range]
    rw [h k h2]
    simp [List.getD_eq_getElem?_getD, h2]

theorem write_loop_readback (L : uc_lib) (past : Nat → Nat) (elf : Option Elf)
    (buf : Option (List Nat)) :
    ∀ (fuel i err : Nat) (uc : uc_engine) (err2 : Nat) (uc2 : uc_engine),
      write_loop L past elf buf fuel i err uc = some (i + fuel, err2, uc2) →
      ∀ (idx : Nat) (ph : GElf_Phdr), i ≤ idx → idx < i + fuel →
        gelf_getphdr elf idx = some ph →
        (∀ j q, idx < j → j < i + fuel → gelf_getphdr elf j = some q →
          overlaps ph.p_paddr ph.p_filesz q.p_paddr q.p_filesz = false) →
        buf_read past buf ph.p_offset ph.p_filesz =
          some (uc_mem_read uc2 ph.p_paddr ph.p_filesz) := by
  intro fuel
  induction fuel with
  | zero => intro i err uc err2 uc2 _ idx ph h1 h2; omega
  | succ k ih =>
    intro i err uc err2 uc2 h idx ph hi hlt hph hdis
    obtain ⟨p0, bytes, uc1, hp0, hbytes, hw, hrest⟩ := write_loop_step L past elf buf k i err uc err2 uc2 h
    by_cases hidx : idx = i
    · subst hidx
      rw [hph] at hp0
      cases hp0
      have hlen := buf_read_length past buf _ _ bytes hbytes
      rw [hbytes]
      congr 1
      rw [← hlen]
      symm
      apply uc_mem_read_eq
      intro t ht
      have hfr := write_loop_frame L past elf buf k (idx + 1) 0 uc1 err2 uc2 hrest ph.p_paddr
        ph.p_filesz (fun j q hj hj2 hq => hdis j q (by omega) (by omega) hq)
        (ph.p_paddr + t) (by omega) (by omega)
      rw [hfr, uc_mem_write_ok L uc uc1 _ bytes hw, if_pos (by omega)]
      congr 1
      omega
    · exact ih (i + 1) 0 uc1 err2 uc2 hrest idx ph (by omega) (by omega) hph
        (fun j q hj hj2 hq => hdis j q hj (by omega) hq)

theorem uc_mem_map_mem (L : uc_lib) (uc uc1 : uc_engine) (a size err : Nat)
    (h : uc_mem_map L uc a size = (err, uc1)) : uc1.mem = uc.mem := by
  unfold uc_mem_map at h
  split_ifs at h <;> cases h <;> rfl

theorem uc_mem_map_zero (L : uc_lib) (uc uc1 : uc_engine) (a size : Nat)
    (h : uc_mem_map L uc a size = (0, uc1)) : L.mem_map_err uc a size = 0 := by
  unfold uc_mem_map at h
  split_ifs at h with hz
  · exact hz
  · simp only [Prod.mk.injEq] at h
    exact h.1

/-- What a return code of 0 tells about the run of `load_elf_body`: the value of `ret`
on entry was 0, the footprint computation returned 0, the engine accepted the mapping
of the main region, the segment loop ran through all `n` program headers with every
write accepted, and symbol resolution returned 0. -/
theorem load_elf_body_zero (L : uc_lib) (past : Nat → Nat) (h : elf_handles) (ret : Nat)
    (s : load_state) (out : Nat × load_state)
    (hres : load_elf_body L past h ret s = some out)
    (hret : out.1 = 0) :
    ret = 0 ∧ ∃ amin amax n uc1 err2 uc2,
      get_mem_range_elf h.elf = (0, amin, amax) ∧
      L.mem_map_err s.uc amin (round_len amax amin) = 0 ∧
      elf_getphdrnum h.elf = some n ∧
      write_loop L past h.elf h.elf_buf n 0 0 uc1 = some (0 + n, err2, uc2) ∧
      (get_symbol_values h.elf s.syms).1 = 0 ∧
      out.2.uc.mem = uc2.mem := by
  unfold load_elf_body at hres
  rcases hr : get_mem_range_elf h.elf with ⟨r2, amin, amax⟩
  rw [hr] at hres
  simp only at hres
  by_cases h2 : r2 = 0
  swap
  · rw [if_pos h2] at hres; cases hres; simp at hret
  rw [if_neg (by simpa using h2)] at hres
  rcases hm : uc_mem_map L s.uc amin (round_len amax amin) with ⟨err1, uc1⟩
  rw [hm] at hres
  simp only at hres
  by_cases h3 : err1 = 0
  swap
  · rw [if_pos h3] at hres; cases hres; simp at hret
  rw [if_neg (by simpa using h3)] at hres
  subst h3
  cases hn : elf_getphdrnum h.elf with
  | none => rw [hn] at hres; cases hres; simp at hret
  | some n =>
    rw [hn] at hres
    simp only at hres
    cases hw : write_loop L past h.elf h.elf_buf n 0 0 uc1 with
    | none => rw [hw] at hres; simp at hres
    | some r =>
      obtain ⟨i, err2, uc2⟩ := r
      rw [hw] at hres
      simp only at hres
      by_cases h5 : i < n
      · rw [if_pos h5] at hres; cases hres; simp at hret
      · rw [if_neg h5] at hres
        rcases hsv : get_symbol_values h.elf s.syms with ⟨r6, sv⟩
        rw [hsv] at hres
        simp only at hres
        by_cases h6 : r6 = 0
        swap
        · rw [if_pos h6] at hres; cases hres; simp at hret
        rw [if_neg (by simpa using h6)] at hres
        rcases hm2 : uc_mem_map L (uc_reg_write uc2 uc_arm_reg.SP sv.stack_sym) sv.stack_sym
          sv.stack_size_sym with ⟨err3, uc4⟩
        rw [hm2] at hres
        cases hres
        have hidx := write_loop_index L past h.elf h.elf_buf n 0 0 uc1 i err2 uc2 hw
        have hin : i = 0 + n := by omega
        subst hin
        subst h2 h6
        refine ⟨hret, amin, amax, 0 + n, uc1, err2, uc2, rfl,
          uc_mem_map_zero L s.uc uc1 _ _ hm, by simp, by simpa using hw, rfl, ?_⟩
        exact uc_mem_map_mem L (uc_reg_write uc2 uc_arm_reg.SP sv.stack_sym) uc4 _ _ _ hm2

theorem write_loop_defined (L : uc_lib) (past : Nat → Nat) (elf : Option Elf)
    (buf : List Nat) :
    ∀ (fuel i err : Nat) (uc : uc_engine),
      (write_loop L past elf (some buf) fuel i err uc).isSome = true := by
  intro fuel
  induction fuel with
  | zero => intro i err uc; rfl
  | succ k ih =>
    intro i err uc
    unfold write_loop
    cases gelf_getphdr elf i with
    | none => rfl
    | some ph =>
      simp only [buf_read]
      split_ifs
      · rfl
      · exact ih _ _ _

/-- Once the image is open, `load_elf` returns: the run reaches a return code whatever
the segments, the symbols and the verdicts of the engine are. -/
theorem load_elf_defined (L : uc_lib) (env : file_env) (h0 : elf_handles) (s : load_state)
    (hcode : (get_elf_stat env h0).1 = 0) : (load_elf L env h0 s).isSome = true := by
  obtain ⟨e, helf⟩ := get_elf_stat_elf_begin env h0 hcode
  rw [load_elf_of_ok L env h0 s e hcode helf]
  unfold load_elf_body
  simp only
  rcases get_mem_range_elf (some e) with ⟨r2, amin, amax⟩
  simp only
  rcases uc_mem_map L s.uc amin (round_len amax amin) with ⟨err1, uc1⟩
  simp only
  cases elf_getphdrnum (some e) with
  | none => split_ifs <;> rfl
  | some n =>
    simp only
    have hw := write_loop_defined L env.past_buf (some e) env.file n 0 err1 uc1
    cases hwl : write_loop L env.past_buf (some e) (some env.file) n 0 err1 uc1 with
    | none => rw [hwl] at hw; exact absurd hw (by decide)
    | some r =>
      obtain ⟨i, err2, uc2⟩ := r
      simp only
      split_ifs <;> rfl

theorem load_elf_zero_code (L : uc_lib) (env : file_env) (h0 : elf_handles) (s : load_state)
    (out : Nat × load_state) (hres : load_elf L env h0 s = some out) (hret : out.1 = 0) :
    (get_elf_stat env h0).1 = 0 := by
  by_contra hc
  unfold load_elf at hres
  rcases hg : get_elf_stat env h0 with ⟨code, h⟩
  rw [hg] at hres hc
  simp only at hres hc
  rw [if_pos hc] at hres
  split_ifs at hres
  · cases hres; simp at hret
  · cases hres; simp at hret
  · cases hres; simp at hret
  · have := (load_elf_body_zero L env.past_buf h 1 s out hres hret).1
    omega

/-- C5 (amended): whenever `load_elf` returns 0, every segment whose file range
`[p_offset, p_offset + p_filesz)` lies inside the file and whose target range
`[p_paddr, p_paddr + p_filesz)` shares no address with the target range of a segment
later in the program-header table reads back from the emulated memory, at `p_paddr`, as
the `p_filesz` bytes of the file starting at `p_offset`. Nothing is assumed about the
other segments: their file ranges may leave the file. -/
theorem load_elf_readback (L : uc_lib) (env : file_env) (h0 : elf_handles) (s : load_state)
    (out : Nat × load_state) (e : Elf) (n i : Nat) (ph : GElf_Phdr)
    (hres : load_elf L env h0 s = some out) (hret : out.1 = 0)
    (helf : env.elf_begin = some e) (hn : e.phdrnum = some n)
    (hi : i < n) (hph : e.phdrs[i]? = some ph)
    (hfile : ph.p_offset + ph.p_filesz ≤ env.file.length)
    (hlater : ∀ j q, i < j → j < n → e.phdrs[j]? = some q →
      overlaps ph.p_paddr ph.p_filesz q.p_paddr q.p_filesz = false) :
    uc_mem_read out.2.uc ph.p_paddr ph.p_filesz =
      (env.file.drop ph.p_offset).take ph.p_filesz := by
  have hcode := load_elf_zero_code L env h0 s out hres hret
  rw [load_elf_of_ok L env h0 s e hcode helf] at hres
  obtain ⟨_, _, _, n1, uc1, err2, uc2, _, _, hn1, hw, _, hmem⟩ :=
    load_elf_body_zero L _ _ 0 s out hres hret
  simp only [elf_getphdrnum, hn, Option.some.injEq] at hn1
  subst hn1
  have hrb := write_loop_readback L env.past_buf (some e) (some env.file) n 0 0 uc1 err2 uc2 hw i ph
    (Nat.zero_le _) (by omega) hph
    (fun j q hj hj2 hq => hlater j q hj (by omega) hq)
  have hsame : uc_mem_read out.2.uc ph.p_paddr ph.p_filesz =
      uc_mem_read uc2 ph.p_paddr ph.p_filesz := by
    unfold uc_mem_read; rw [hmem]
  rw [hsame]
  rw [buf_read_inside env.past_buf env.file _ _ hfile] at hrb
  exact (Option.some.inj hrb).symm

/-- Witness of `load_elf_readback`: the first of the two segments (0x1000, 0x100) and
(0x2000, 0x50), loaded into an engine that accepts every request. -/
theorem load_elf_readback_witness :
    ∃ out, load_elf lax_lib (good_file eight_bytes (elf_of_segments example_segs sample_scns))
        no_handles blank_state = some out ∧ out.1 = 0 ∧
      uc_mem_read out.2.uc 4096 4 = (eight_bytes.drop 0).take 4 := by
  cases hres : load_elf lax_lib
      (good_file eight_bytes (elf_of_segments example_segs sample_scns))
      no_handles blank_state with
  | none =>
    have hs : (load_elf lax_lib
        (good_file eight_bytes (elf_of_segments example_segs sample_scns))
        no_handles blank_state).isSome = true := rfl
    rw [hres] at hs
    exact absurd hs (by decide)
  | some out =>
    have hret : (load_elf lax_lib
        (good_file eight_bytes (elf_of_segments example_segs sample_scns))
        no_handles blank_state).map (fun o => o.1) = some 0 := rfl
    rw [hres] at hret
    have hret0 : out.1 = 0 := by simpa using hret
    refine ⟨out, rfl, hret0, ?_⟩
    exact load_elf_readback lax_lib
      (good_file eight_bytes (elf_of_segments example_segs sample_scns)) no_handles
      blank_state out (elf_of_segments example_segs sample_scns) 2 0 ⟨1, 0, 4096, 4, 256⟩
      hres hret0 rfl rfl (by decide) rfl (by decide)
      (by
        intro j q hj hj2 hq
        have hj1 : j = 1 := by omega
        subst hj1
        have hq1 : q = ⟨1, 4, 8192, 4, 80⟩ := by
          have : (elf_of_segments example_segs sample_scns).phdrs[1]? =
              some ⟨1, 4, 8192, 4, 80⟩ := rfl
          rw [this] at hq
          exact (Option.some.inj hq).symm
        subst hq1
        rfl)

/-- C5 (as stated) fails: with two segments placed at the same physical address 0x1000,
`load_elf` returns 0 (on an engine with page-granular mapping rules), and the four bytes
read back at the first segment's address are those of the second segment, written later,
not the file bytes at the first segment's offset. -/
theorem load_elf_later_segment_overwrites :
    ¬ (∀ (L : uc_lib) (env : file_env) (h0 : elf_handles) (s : load_state)
        (out : Nat × load_state) (e : Elf) (n i : Nat) (ph : GElf_Phdr),
        load_elf L env h0 s = some out → out.1 = 0 →
        env.elf_begin = some e → e.phdrnum = some n → i < n → e.phdrs[i]? = some ph →
        uc_mem_read out.2.uc ph.p_paddr ph.p_filesz =
          (env.file.drop ph.p_offset).take ph.p_filesz) := by
  intro h
  cases hres : load_elf page_lib
      (good_file eight_bytes (elf_of_segments stacked_segs sample_scns))
      no_handles blank_state with
  | none =>
    have hs : (load_elf page_lib
        (good_file eight_bytes (elf_of_segments stacked_segs sample_scns))
        no_handles blank_state).isSome = true := rfl
    rw [hres] at hs
    exact absurd hs (by decide)
  | some out =>
    have hval : (load_elf page_lib
        (good_file eight_bytes (elf_of_segments stacked_segs sample_scns))
        no_handles blank_state).map (fun o => (o.1, uc_mem_read o.2.uc 4096 4)) =
          some (0, [85, 102, 119, 136]) := rfl
    rw [hres] at hval
    simp only [Option.map_some', Option.some.injEq, Prod.mk.injEq] at hval
    have hc := h page_lib (good_file eight_bytes (elf_of_segments stacked_segs sample_scns))
      no_handles blank_state out (elf_of_segments stacked_segs sample_scns) 2 0
      ⟨1, 0, 4096, 4, 4096⟩ hres hval.1 rfl rfl (by decide) rfl
    rw [hval.2] at hc
    exact absurd hc (by decide)

/-- C9 (code defect): the error code of the stack mapping is stored in `err` and never
inspected. With one page-sized segment at address 0 and `__stack` at address 0, an
engine that refuses overlapping mappings answers the stack mapping with code 11; yet
`load_elf` returns 0, with only the main region mapped. -/
theorem load_elf_ignores_stack_map_error :
    (load_elf page_lib (good_file eight_bytes
        (elf_of_segments page_segs [⟨SHT_SYMTAB, low_stack_syms⟩]))
        no_handles blank_state).map (fun o => (o.1, o.2.err, o.2.uc.regions)) =
      some (0, 11, [(0, 4096)]) := by
  rfl

/-- The segment bytes are read without a bounds check: for a segment whose file range
starts at offset 6 of an eight-byte file, `load_elf` returns 0 and the engine holds the
last two file bytes followed by the two bytes found behind the buffer. -/
theorem load_elf_reads_past_file :
    (load_elf page_lib (good_file eight_bytes (elf_of_segments overrun_segs sample_scns))
        no_handles blank_state).map (fun o => (o.1, uc_mem_read o.2.uc 4096 4)) =
      some (0, [119, 136, 170, 170]) := by
  rfl

end ArmEmu
